import Mathlib

/-!
Verification development for the review-server repository (C++ sources:
client MinReview and servercpp). The definitions below are shallow
embeddings of the source functions; theorems settle the spec claims.
-/

set_option maxHeartbeats 1000000

namespace ReviewServer

/-! ## JSON values (boost::json model)

Objects are association lists in insertion order, matching
`boost::json::object` which preserves insertion order. -/

inductive JVal where
  | null : JVal
  | str (s : String) : JVal
  | num (n : Int) : JVal
  | arr (xs : List JVal) : JVal
  | obj (o : List (String × JVal)) : JVal
deriving Repr

/-- Lookup in a JSON object (first match, as in `boost::json::object::find`). -/
def objGet : List (String × JVal) → String → Option JVal
  | [], _ => none
  | (k', v) :: rest, k => if k' = k then some v else objGet rest k

/-- In-place update of an existing key, preserving position
(`boost::json::object::operator[]` assignment on a present key). -/
def objSet : List (String × JVal) → String → JVal → List (String × JVal)
  | [], _, _ => []
  | (k', v') :: rest, k, v =>
    if k' = k then (k', v) :: rest else (k', v') :: objSet rest k v

/-- `boost::json::object::emplace`: insert only if the key is absent
(appends at the end, preserving insertion order). -/
def objEmplace (o : List (String × JVal)) (k : String) (v : JVal) :
    List (String × JVal) :=
  if (objGet o k).isSome then o else o ++ [(k, v)]

/-- Attribute list of a start tag turned into a JSON object, mirroring the
`for (int i = 0; attrs[i]; i += 2) emplace(attrs[i], attrs[i+1])` loops in
`XmlToJsonDataHandler::onStartElement`. -/
def attrsToObj (attrs : List (String × String)) : List (String × JVal) :=
  attrs.foldl (fun o kv => objEmplace o kv.1 (JVal.str kv.2)) []

/-! ## Paths into a JSON document

The C++ handler keeps a `std::stack<boost::json::value*>` of raw pointers
into the growing document.  The embedding replaces each pointer by the
access path from the root, which denotes the same node. -/

inductive PathStep where
  | key (k : String) : PathStep
  | idx (i : Nat) : PathStep
deriving Repr, DecidableEq

def getPath : JVal → List PathStep → Option JVal
  | v, [] => some v
  | JVal.obj o, PathStep.key k :: p =>
    match objGet o k with
    | some v => getPath v p
    | none => none
  | JVal.arr a, PathStep.idx i :: p =>
    match a.get? i with
    | some v => getPath v p
    | none => none
  | _, _ => none

def setPath (v : JVal) (p : List PathStep) (nv : JVal) : JVal :=
  match p, v with
  | [], _ => nv
  | PathStep.key k :: p', JVal.obj o =>
    match objGet o k with
    | some w => JVal.obj (objSet o k (setPath w p' nv))
    | none => JVal.obj o
  | PathStep.idx i :: p', JVal.arr a =>
    match a.get? i with
    | some w => JVal.arr (a.set i (setPath w p' nv))
    | none => JVal.arr a
  | _ :: _, v => v

/-! ## XmlToJsonDataHandler state (XmlToJsonHandler.h)

`componentDepth_`, `componentCaptured_`, `root_`, `jsonStack_`; the flag
`hasCallback` models whether `componentParseCallback_` is non-null. -/

structure HState where
  root : JVal
  stack : List (List PathStep)
  depth : Nat
  captured : Bool
  hasCallback : Bool
deriving Repr

/-- Constructor state: `root_ = object()`, empty stack, depth 0, not captured. -/
def initState (cb : Bool) : HState :=
  { root := JVal.obj [], stack := [], depth := 0, captured := false,
    hasCallback := cb }

/-- `trim` from XmlToJsonHandler.h: strip surrounding `" \t\n\r"`. -/
def isWsChar (c : Char) : Bool :=
  c = ' ' || c = '\t' || c = '\n' || c = '\r'

def trim (s : String) : String :=
  String.mk (((s.toList.dropWhile isWsChar).reverse.dropWhile isWsChar).reverse)

/-- `std::string::ends_with` on the character level. -/
def strEndsWith (s t : String) : Bool :=
  decide (s.toList.drop (s.toList.length - t.toList.length) = t.toList)

/-- The asset-suffix test from `onCharacterData`:
`ends_with(".jpg") || ends_with(".jpeg") || ends_with(".png")`. -/
def hasAssetSuffix (s : String) : Bool :=
  strEndsWith s ".jpg" || strEndsWith s ".jpeg" || strEndsWith s ".png"

/-- `XmlToJsonDataHandler::onStartElement`. -/
def onStartElement (s : HState) (name : String)
    (attrs : List (String × String)) : Except String HState :=
  if s.depth = 0 then
    if ¬ s.captured ∧ name = "component" then
      Except.ok { s with root := JVal.obj (attrsToObj attrs),
                         stack := [[]], depth := 1 }
    else Except.ok s
  else
    match s.stack with
    | [] => Except.error "json stack empty"
    | parentPath :: _ =>
      match getPath s.root parentPath with
      | none => Except.error "dangling json stack entry"
      | some parent =>
        match parent with
        | JVal.obj po =>
          let newElem := JVal.obj (attrsToObj attrs)
          match objGet po name with
          | some existing =>
            let baseArr := match existing with
              | JVal.arr a => a
              | v => [v]
            let newArr := baseArr ++ [newElem]
            let po' := objSet po name (JVal.arr newArr)
            let childPath :=
              parentPath ++ [PathStep.key name, PathStep.idx (newArr.length - 1)]
            Except.ok { s with root := setPath s.root parentPath (JVal.obj po'),
                               stack := childPath :: s.stack,
                               depth := s.depth + 1 }
          | none =>
            let po' := po ++ [(name, newElem)]
            let childPath := parentPath ++ [PathStep.key name]
            Except.ok { s with root := setPath s.root parentPath (JVal.obj po'),
                               stack := childPath :: s.stack,
                               depth := s.depth + 1 }
        | _ => Except.error "Parent JSON element is not an object"

/-- `XmlToJsonDataHandler::onEndElement` (the tag name is unused by the code). -/
def onEndElement (s : HState) : HState :=
  if s.depth > 0 then
    let s' := { s with depth := s.depth - 1, stack := s.stack.tail }
    if s.depth - 1 = 0 then { s' with captured := true } else s'
  else s

/-- `XmlToJsonDataHandler::onCharacterData`; returns the new state together
with the list of asset-discovered callback invocations it performs. -/
def onCharacterData (s : HState) (data : String) :
    Except String (HState × List String) :=
  if s.depth = 0 then Except.ok (s, [])
  else
    let trimmed := trim data
    if trimmed = "" then Except.ok (s, [])
    else
      match s.stack with
      | [] => Except.error "json stack empty"
      | curPath :: _ =>
        match getPath s.root curPath with
        | none => Except.error "dangling json stack entry"
        | some cur =>
          let newCur : Except String JVal :=
            match cur with
            | JVal.str existing => Except.ok (JVal.str (existing ++ trimmed))
            | JVal.null => Except.ok (JVal.str trimmed)
            | JVal.obj o =>
              match objGet o "#text" with
              | some (JVal.str existing) =>
                Except.ok (JVal.obj (objSet o "#text" (JVal.str (existing ++ trimmed))))
              | some _ => Except.error "#text value is not a string"
              | none => Except.ok (JVal.obj (o ++ [("#text", JVal.str trimmed)]))
            | _ => Except.ok (JVal.str trimmed)
          match newCur with
          | Except.error e => Except.error e
          | Except.ok nv =>
            let calls :=
              if s.hasCallback ∧ hasAssetSuffix trimmed then [trimmed] else []
            Except.ok ({ s with root := setPath s.root curPath nv }, calls)

/-! ## Event-level runner

Expat delivers start-tag, end-tag and character-data events; the runner
feeds them to the handler, tracking the overall XML element depth (used
by the final `XML_Parse(parser, nullptr, 0, true)` well-formedness check)
and accumulating asset callbacks. -/

inductive XEvent where
  | openE (name : String) (attrs : List (String × String)) : XEvent
  | closeE (name : String) : XEvent
  | textE (data : String) : XEvent
deriving Repr

def stepFull (st : HState × Nat × List String) (e : XEvent) :
    Except String (HState × Nat × List String) :=
  match e with
  | XEvent.openE name attrs =>
    match onStartElement st.1 name attrs with
    | Except.ok s' => Except.ok (s', st.2.1 + 1, st.2.2)
    | Except.error err => Except.error err
  | XEvent.closeE _ =>
    Except.ok (onEndElement st.1, st.2.1 - 1, st.2.2)
  | XEvent.textE data =>
    match onCharacterData st.1 data with
    | Except.ok (s', calls) => Except.ok (s', st.2.1, st.2.2 ++ calls)
    | Except.error err => Except.error err

def runFull (st : HState × Nat × List String) :
    List XEvent → Except String (HState × Nat × List String)
  | [] => Except.ok st
  | e :: evs =>
    match stepFull st e with
    | Except.ok st' => runFull st' evs
    | Except.error err => Except.error err

/-- Overall XML depth after a list of events (what expat's internal element
stack tracks); truncated subtraction matches the runner. -/
def depthAfter (d : Nat) : List XEvent → Nat
  | [] => d
  | XEvent.openE _ _ :: evs => depthAfter (d + 1) evs
  | XEvent.closeE _ :: evs => depthAfter (d - 1) evs
  | XEvent.textE _ :: evs => depthAfter d evs

/-- Does the event list contain a start tag named `component`? -/
def hasComponentOpen (evs : List XEvent) : Bool :=
  evs.any fun e =>
    match e with
    | XEvent.openE name _ => name = "component"
    | _ => false

/-- JSON serialization (`boost::json::serialize`): insertion order of
object members is preserved. -/
def escapeChar (c : Char) : String :=
  if c = '"' then "\\\"" else if c = '\\' then "\\\\" else String.mk [c]

def escapeStr (s : String) : String :=
  s.toList.foldl (fun acc c => acc ++ escapeChar c) ""

mutual
def serializeJ : JVal → String
  | JVal.null => "null"
  | JVal.str s => "\"" ++ escapeStr s ++ "\""
  | JVal.num n => toString n
  | JVal.arr xs => "[" ++ serializeArr xs ++ "]"
  | JVal.obj o => "\x7b" ++ serializeObj o ++ "\x7d"

def serializeArr : List JVal → String
  | [] => ""
  | [x] => serializeJ x
  | x :: xs => serializeJ x ++ "," ++ serializeArr xs

def serializeObj : List (String × JVal) → String
  | [] => ""
  | [(k, v)] => "\"" ++ escapeStr k ++ "\":" ++ serializeJ v
  | (k, v) :: rest =>
    "\"" ++ escapeStr k ++ "\":" ++ serializeJ v ++ "," ++ serializeObj rest
end

/-- `XmlToJsonDataHandler::finalize`: the final `XML_Parse(..., true)` call
fails when elements are left open at end of input (`d ≠ 0`); then the
`componentCaptured_` check; then serialize `root_` to the output file. -/
def finalize (d : Nat) (s : HState) : Except String String :=
  if d ≠ 0 then Except.error "XML Parse error on finalize"
  else if ¬ s.captured then
    Except.error "No <component> element found in the XML"
  else Except.ok (serializeJ s.root)

/-! ## HTTP status decisions of the two fetchers

`XmlDownloader::download` (XmlDownload.h) and `HttpDownloader::download`
(HttpDownload.h) check the first decoded status line.  The XML fetcher
short-circuits a resume that sees `416 Range Not Satisfiable`; the plain
HTTP fetcher has no such branch. -/

inductive StatusOutcome where
  | success : StatusOutcome
  | continueDownload : StatusOutcome
  | fatal (code : Nat) : StatusOutcome
deriving Repr, DecidableEq

/-- Header-complete status handling in `XmlDownloader::download`
(XmlDownload.h lines 135–144), in source order. -/
def xmlStatusCheck (resume : Bool) (status : Nat) : StatusOutcome :=
  if resume ∧ status = 416 then StatusOutcome.success
  else if resume ∧ status ≠ 206 then StatusOutcome.fatal status
  else if ¬ resume ∧ status ≠ 200 then StatusOutcome.fatal status
  else StatusOutcome.continueDownload

/-- Header-complete status handling in `HttpDownloader::download`
(HttpDownload.h lines 139–142): no 416 branch. -/
def httpStatusCheck (resume : Bool) (status : Nat) : StatusOutcome :=
  if resume ∧ status ≠ 206 then StatusOutcome.fatal status
  else if ¬ resume ∧ status ≠ 200 then StatusOutcome.fatal status
  else StatusOutcome.continueDownload

/-! ## XmlDownloader::download data flow

The fetch result: the local file content (list of appended chunks), the
JSON output (produced only when a data handler was attached and
`finalize` ran), and the asset-discovered callback invocations (produced
only by the data handler). `handlerRun` abstracts the transducer applied
to the bytes that were fed to it. -/

structure XmlDlResult where
  fileContent : List String
  jsonOut : Option String
  assetCallbacks : List String
deriving Repr

def xmlDownloadModel (handlerRun : List String → Option String × List String)
    (fileExists : Bool) (oldSize : Nat) (oldContent : List String)
    (status : Nat) (chunks : List String) : Except String XmlDlResult :=
  let existing_file_size := if fileExists then oldSize else 0
  let resume := fileExists && decide (existing_file_size > 0)
  match xmlStatusCheck resume status with
  | StatusOutcome.success => Except.ok ⟨oldContent, none, []⟩
  | StatusOutcome.fatal code =>
    Except.error ("server response code:" ++ toString code)
  | StatusOutcome.continueDownload =>
    let attached := existing_file_size = 0
    let fed := if attached then chunks else []
    let handlerOut := if attached then handlerRun fed else (none, [])
    Except.ok ⟨oldContent ++ chunks, handlerOut.1, handlerOut.2⟩

/-! ## Server WebSocket session outbound queue (main.cpp ws_session)

`deliver` pushes onto `write_queue_` and starts a write only when none
was in progress; `on_write` pops the front and starts the next write when
the queue is non-empty.  `writing` counts outstanding `async_write`
operations and `sent` records completed writes in completion order. -/

structure WsSession where
  write_queue : List String
  sent : List String
  writing : Nat
deriving Repr

def initWs : WsSession := { write_queue := [], sent := [], writing := 0 }

/-- `ws_session::do_write`: start an `async_write` of the queue front. -/
def do_write (s : WsSession) : WsSession := { s with writing := s.writing + 1 }

/-- `ws_session::deliver`. -/
def deliver (s : WsSession) (msg : String) : WsSession :=
  let write_in_progress := ¬ s.write_queue.isEmpty
  let s' := { s with write_queue := s.write_queue ++ [msg] }
  if write_in_progress then s' else do_write s'

/-- `ws_session::on_write` (success path): pop the front, record the
completed message, start the next write if the queue is non-empty. -/
def on_write (s : WsSession) : WsSession :=
  match s.write_queue with
  | [] => s
  | m :: rest =>
    let s' := { write_queue := rest, sent := s.sent ++ [m],
                writing := s.writing - 1 }
    if rest.isEmpty then s' else do_write s'

inductive WsEvent where
  | deliverE (msg : String) : WsEvent
  | writeDoneE : WsEvent
deriving Repr

def wsStep (s : WsSession) : WsEvent → WsSession
  | WsEvent.deliverE msg => deliver s msg
  | WsEvent.writeDoneE => on_write s

def runWs (s : WsSession) : List WsEvent → WsSession
  | [] => s
  | e :: evs => runWs (wsStep s e) evs

/-- The messages submitted by `deliver` calls, in submission order. -/
def submitted (evs : List WsEvent) : List String :=
  evs.filterMap fun e =>
    match e with
    | WsEvent.deliverE msg => some msg
    | WsEvent.writeDoneE => none

/-! ## /tasks handler (main.cpp http_session::handle_request) -/

/-- `resultPrefix` constant from main.cpp. -/
def resultPrefix : String := "/home/aoi/aoi"

/-- One token of `parse_query`: split at the first `'='`; tokens without
`'='` are skipped. -/
def splitKV (token : String) : Option (String × String) :=
  match token.toList.findIdx? (· = '=') with
  | some i =>
    some (String.mk (token.toList.take i), String.mk (token.toList.drop (i + 1)))
  | none => none

/-- `std::map` assignment `query_map[key] = value`: overwrite if present,
insert otherwise (only lookup is observed, so order is irrelevant). -/
def mapPut (m : List (String × String)) (k v : String) :
    List (String × String) :=
  if m.any (fun kv => kv.1 = k) then
    m.map (fun kv => if kv.1 = k then (k, v) else kv)
  else m ++ [(k, v)]

/-- `parse_query` from main.cpp: split the query on `'&'`, keep tokens
with an `'='`. -/
def parse_query (query : String) : List (String × String) :=
  (query.splitOn "&").foldl
    (fun m token =>
      match splitKV token with
      | some (k, v) => mapPut m k v
      | none => m)
    []

/-- `std::map::operator[]` on read: present value or default-constructed
empty string. -/
def queryLookup (m : List (String × String)) (k : String) : String :=
  match m.find? (fun kv => kv.1 = k) with
  | some kv => kv.2
  | none => ""

/-- `std::string::find(t) == 0` — does `s` start with `t`? -/
def strStartsWith (s t : String) : Bool :=
  decide (s.toList.take t.toList.length = t.toList)

/-- `relativeAddress`: strip `resultPrefix` when `find(resultPrefix) == 0`
(`substr(resultPrefix.size())`). -/
def stripResultAddr (addr : String) : String :=
  if strStartsWith addr resultPrefix then
    String.mk (addr.toList.drop resultPrefix.toList.length)
  else addr

structure HttpResponse where
  status : Nat
  contentType : String
  body : String
deriving Repr

structure TasksOut where
  msg : String
  response : HttpResponse
deriving Repr

/-- The `/tasks` branch of `http_session::handle_request`: extract the
query parameters, strip the address prefix, build the protocol-1
envelope, serialize it, and answer 200 text/plain. -/
def tasksHandler (client_ip : String) (query : String) : TasksOut :=
  let params := parse_query query
  let addressParam := queryLookup params "address"
  let modelParam := queryLookup params "model"
  let versionParam := queryLookup params "version"
  let relativeAddress := stripResultAddr addressParam
  let data : List (String × JVal) :=
    [("host", JVal.str client_ip), ("target", JVal.str relativeAddress),
     ("model", JVal.str modelParam), ("version", JVal.str versionParam)]
  let messageWrapper : List (String × JVal) :=
    [("protocol_id", JVal.num 1), ("data", JVal.obj data)]
  { msg := serializeJ (JVal.obj messageWrapper),
    response := { status := 200, contentType := "text/plain; charset=utf-8",
                  body := "Request /tasks processed and info broadcasted to websocket clients." } }

/-- `shared_state::broadcast`: deliver the message to every live session. -/
def broadcast (sessions : List WsSession) (msg : String) : List WsSession :=
  sessions.map (fun s => deliver s msg)

/-! ## Client reconnect loop (Network.h ManagedWebSocketClient) -/

/-- The delay of `schedule_reconnect`: `expires_after(std::chrono::seconds(5))`. -/
def reconnectDelaySeconds : Nat := 5

inductive ClientPhase where
  | connected : ClientPhase
  | reconnectPending (deadline : Nat) : ClientPhase
deriving Repr, DecidableEq

/-- `schedule_reconnect` at absolute time `now`: arm the timer for
`now + 5` seconds. -/
def schedule_reconnect (now : Nat) : ClientPhase :=
  ClientPhase.reconnectPending (now + reconnectDelaySeconds)

/-- `do_connect` at time `now` with attempt outcome `ok`: enter
Connected on success, otherwise schedule a reconnect. -/
def do_connect (now : Nat) (ok : Bool) : ClientPhase :=
  if ok then ClientPhase.connected else schedule_reconnect now

/-- The reconnect loop driven by the outcome oracle `f`: attempt `n`
happens when the timer of attempt `n-1` fires (at its deadline); a
successful attempt stops the loop.  Returns (time of attempt n, phase
after attempt n). -/
def runAttempts (f : Nat → Bool) : Nat → Nat × ClientPhase
  | 0 => (0, do_connect 0 (f 0))
  | n + 1 =>
    match runAttempts f n with
    | (_, ClientPhase.reconnectPending d) => (d, do_connect d (f (n + 1)))
    | (t, ph) => (t, ph)

/-! ## /setting handler (main.cpp http_session::handle_request)

`req_.at(http::field::host)` is `boost::beast::http::basic_fields::at`,
which throws `std::out_of_range` when the header is absent. -/

def fieldsAt (hostHeader : Option String) : Except String String :=
  match hostHeader with
  | some h => Except.ok h
  | none => Except.error "std::out_of_range"

/-- The `/setting` branch of `http_session::handle_request`, as a function
of the request's optional `Host` header. -/
def settingHandler (hostHeader : Option String) : Except String HttpResponse :=
  match fieldsAt hostHeader with
  | Except.ok h =>
    Except.ok { status := 200, contentType := "text/plain; charset=utf-8",
                body := "Request /setting has been processed: " ++ h }
  | Except.error e => Except.error e

/-! ## Helper lemmas -/

/-- Once `componentCaptured_` is set and `componentDepth_` is back to 0,
every further event is a no-op on the handler state and fires no callback. -/
lemma stepFull_fixed (s : HState) (d : Nat) (acc : List String) (e : XEvent)
    (hc : s.captured = true) (hd : s.depth = 0) :
    stepFull (s, d, acc) e =
      Except.ok (s,
        (match e with
         | XEvent.openE _ _ => d + 1
         | XEvent.closeE _ => d - 1
         | XEvent.textE _ => d), acc) := by
  cases e with
  | openE name attrs =>
    simp only [stepFull, onStartElement, hd, hc]
    simp
  | closeE name =>
    simp only [stepFull, onEndElement, hd]
    simp
  | textE data =>
    simp only [stepFull, onCharacterData, hd]
    simp

lemma runFull_fixed (evs : List XEvent) :
    ∀ (s : HState) (d : Nat) (acc : List String),
      s.captured = true → s.depth = 0 →
      runFull (s, d, acc) evs = Except.ok (s, depthAfter d evs, acc) := by
  induction evs with
  | nil => intro s d acc _ _; rfl
  | cons e evs ih =>
    intro s d acc hc hd
    cases e with
    | openE name attrs =>
      rw [runFull, stepFull_fixed s d acc _ hc hd]
      exact ih s (d + 1) acc hc hd
    | closeE name =>
      rw [runFull, stepFull_fixed s d acc _ hc hd]
      exact ih s (d - 1) acc hc hd
    | textE data =>
      rw [runFull, stepFull_fixed s d acc _ hc hd]
      exact ih s d acc hc hd

lemma runFull_append (a b : List XEvent) :
    ∀ st, runFull st (a ++ b) =
      match runFull st a with
      | Except.ok st' => runFull st' b
      | Except.error e => Except.error e := by
  induction a with
  | nil => intro st; rfl
  | cons e a ih =>
    intro st
    show runFull st (e :: (a ++ b)) = _
    cases h : stepFull st e with
    | ok st' =>
      simp only [runFull, h]
      exact ih st'
    | error err =>
      simp only [runFull, h]

/-! ## C1: capture-once -/

/-- **C1.** Once the first `component` subtree has been fully captured
(`componentCaptured_` set, `componentDepth_` back to 0), every later
event — element opens, closes and character data of any later
`component` sibling and its descendants — is ignored: the handler state
(including the captured JSON) and the callback trace are unchanged. -/
theorem spec_c1 (cb : Bool) (evs1 evs2 : List XEvent) (s : HState) (d : Nat)
    (acc : List String)
    (h1 : runFull (initState cb, 0, []) evs1 = Except.ok (s, d, acc))
    (hc : s.captured = true) (hd : s.depth = 0) :
    runFull (initState cb, 0, []) (evs1 ++ evs2) =
      Except.ok (s, depthAfter d evs2, acc) := by
  rw [runFull_append evs1 evs2, h1]
  exact runFull_fixed evs2 s d acc hc hd

/-- First captured subtree for the C1 witness document. -/
def c1doc1 : List XEvent :=
  [XEvent.openE "component" [], XEvent.openE "x" [], XEvent.textE "a.png",
   XEvent.closeE "x", XEvent.closeE "component"]

/-- A second sibling `component` subtree (with a descendant and text that
would otherwise fire the asset callback). -/
def c1doc2 : List XEvent :=
  [XEvent.openE "component" [], XEvent.openE "y" [], XEvent.textE "b.png",
   XEvent.closeE "y", XEvent.closeE "component"]

def c1state : HState :=
  { root := JVal.obj [("x", JVal.obj [("#text", JVal.str "a.png")])],
    stack := [], depth := 0, captured := true, hasCallback := true }

theorem spec_c1_witness :
    runFull (initState true, 0, []) (c1doc1 ++ c1doc2) =
      Except.ok (c1state, 0, ["a.png"]) := by
  have h := spec_c1 true c1doc1 c1doc2 c1state 0 ["a.png"] rfl rfl rfl
  exact h

/-! ## C2: array folding -/

/-- The events of `<a><b>1</b><b>2</b></a>` inside a captured subtree
(`component` is the enclosing captured node). -/
def c2doc : List XEvent :=
  [XEvent.openE "component" [], XEvent.openE "a" [], XEvent.openE "b" [],
   XEvent.textE "1", XEvent.closeE "b", XEvent.openE "b" [],
   XEvent.textE "2", XEvent.closeE "b", XEvent.closeE "a",
   XEvent.closeE "component"]

/-- The JSON actually built for `c2doc` under the enclosing node. -/
def c2actualRoot : JVal :=
  JVal.obj [("a", JVal.obj [("b", JVal.arr
    [JVal.obj [("#text", JVal.str "1")],
     JVal.obj [("#text", JVal.str "2")]])])]

/-- The JSON the claim asserts for `c2doc`. -/
def c2claimedRoot : JVal :=
  JVal.obj [("a", JVal.obj [("b", JVal.arr [JVal.str "1", JVal.str "2"])])]

def rootOf (r : Except String (HState × Nat × List String)) : Option JVal :=
  match r with
  | Except.ok (s, _, _) => some s.root
  | Except.error _ => none

/-- **C2 counterexample.** On `<a><b>1</b><b>2</b></a>` inside the captured
subtree the transducer does not produce `{"a": {"b": ["1","2"]}}`:
leaf text is not stored as the plain string value of the element. -/
theorem spec_c2_counterexample :
    rootOf (runFull (initState false, 0, []) c2doc) ≠ some c2claimedRoot := by
  intro h
  have h0 : rootOf (runFull (initState false, 0, []) c2doc) =
      some c2actualRoot := rfl
  rw [h0] at h
  simp [c2actualRoot, c2claimedRoot] at h

/-- **C2 (amended).** On `<a><b>1</b><b>2</b></a>` inside the captured
subtree, the repeated child key `b` is promoted to an array in encounter
order, but each leaf element is built as a JSON object and its text is
stored under the reserved `"#text"` key: the result under the enclosing
node is `{"a": {"b": [{"#text":"1"},{"#text":"2"}]}}`. -/
theorem spec_c2 :
    runFull (initState false, 0, []) c2doc =
      Except.ok ({ root := c2actualRoot, stack := [], depth := 0,
                   captured := true, hasCallback := false }, 0, []) := rfl

/-! ## C3: fetch status handling -/

/-- **C3 counterexample.** A resumed fetch through
`HttpDownloader::download` that sees `416 Range Not Satisfiable` does not
short-circuit as a success: it is a fatal fetch error (the code throws
`"Continue download error"`), because HttpDownload.h has no 416 branch. -/
theorem spec_c3_counterexample :
    httpStatusCheck true 416 ≠ StatusOutcome.success ∧
    httpStatusCheck true 416 = StatusOutcome.fatal 416 := by decide

/-- **C3 (amended).** In `XmlDownloader::download`, a resume that sees 416
short-circuits as a success and leaves the local file unchanged, any
other status except 206 is fatal, and a non-resume fetch fails on any
status other than 200.  In `HttpDownloader::download` a resume accepts
only 206 — 416 included is fatal — and a non-resume only 200. -/
theorem spec_c3 (status : Nat) :
    (xmlStatusCheck true 416 = StatusOutcome.success) ∧
    (status ≠ 416 → status ≠ 206 →
      xmlStatusCheck true status = StatusOutcome.fatal status) ∧
    (xmlStatusCheck true 206 = StatusOutcome.continueDownload) ∧
    (status ≠ 200 → xmlStatusCheck false status = StatusOutcome.fatal status) ∧
    (xmlStatusCheck false 200 = StatusOutcome.continueDownload) ∧
    (status ≠ 206 → httpStatusCheck true status = StatusOutcome.fatal status) ∧
    (httpStatusCheck true 206 = StatusOutcome.continueDownload) ∧
    (status ≠ 200 → httpStatusCheck false status = StatusOutcome.fatal status) ∧
    (httpStatusCheck false 200 = StatusOutcome.continueDownload) ∧
    (∀ (hr : List String → Option String × List String)
       (oldContent chunks : List String) (oldSize : Nat), 0 < oldSize →
       xmlDownloadModel hr true oldSize oldContent 416 chunks =
         Except.ok ⟨oldContent, none, []⟩) := by
  refine ⟨by decide, ?_, by decide, ?_, by decide, ?_, by decide, ?_, by decide, ?_⟩
  · intro h416 h206
    simp [xmlStatusCheck, h416, h206]
  · intro h200
    simp [xmlStatusCheck, h200]
  · intro h206
    simp [httpStatusCheck, h206]
  · intro h200
    simp [httpStatusCheck, h200]
  · intro hr oldContent chunks oldSize hpos
    have hres : (true && decide ((if true = true then oldSize else 0) > 0)) = true := by
      simp [hpos]
    simp [xmlDownloadModel, xmlStatusCheck, hpos]

theorem spec_c3_witness :
    (xmlStatusCheck true 500 = StatusOutcome.fatal 500) ∧
    (xmlStatusCheck false 301 = StatusOutcome.fatal 301) ∧
    (httpStatusCheck true 416 = StatusOutcome.fatal 416) ∧
    (xmlDownloadModel (fun _ => (none, [])) true 7 ["old"] 416 ["x"] =
      Except.ok ⟨["old"], none, []⟩) := by
  have h1 := (spec_c3 500).2.1 (by decide) (by decide)
  have h2 := (spec_c3 301).2.2.2.1 (by decide)
  have h3 := (spec_c3 416).2.2.2.2.2.1 (by decide)
  have h4 := (spec_c3 0).2.2.2.2.2.2.2.2.2 (fun _ => (none, [])) ["old"] ["x"] 7
    (by decide)
  exact ⟨h1, h2, h3, h4⟩

/-! ## C9: no transducer on resumed fetches -/

/-- **C9.** In `XmlDownloader::download`, when a non-empty partial local
file exists (resume offset greater than zero), no data handler is
created: whatever the transducer would do (`hr` is arbitrary), the fetch
produces no JSON output and no asset-discovered callbacks, and on a
`206 Partial Content` response the fetched chunks are appended to the
existing file content. -/
theorem spec_c9 (hr : List String → Option String × List String)
    (fileExists : Bool) (oldSize : Nat) (oldContent : List String)
    (status : Nat) (chunks : List String) (r : XmlDlResult)
    (hex : fileExists = true) (hpos : 0 < oldSize)
    (hrun : xmlDownloadModel hr fileExists oldSize oldContent status chunks =
      Except.ok r) :
    r.jsonOut = none ∧ r.assetCallbacks = [] ∧
    (status = 206 → r.fileContent = oldContent ++ chunks) := by
  subst hex
  by_cases h416 : status = 416
  · subst h416
    simp [xmlDownloadModel, xmlStatusCheck, hpos] at hrun
    subst hrun
    refine ⟨rfl, rfl, ?_⟩
    intro h; cases h
  · by_cases h206 : status = 206
    · subst h206
      simp [xmlDownloadModel, xmlStatusCheck, hpos, Nat.pos_iff_ne_zero.mp hpos] at hrun
      subst hrun
      exact ⟨rfl, rfl, fun _ => rfl⟩
    · simp [xmlDownloadModel, xmlStatusCheck, hpos, h416, h206] at hrun

theorem spec_c9_witness :
    (xmlDownloadModel (fun _ => (some "json", ["a.png"])) true 5 ["old"] 206
        ["new1", "new2"] = Except.ok ⟨["old", "new1", "new2"], none, []⟩) ∧
    ((⟨["old", "new1", "new2"], none, []⟩ : XmlDlResult).jsonOut = none ∧
     (⟨["old", "new1", "new2"], none, []⟩ : XmlDlResult).assetCallbacks = [] ∧
     (206 = 206 → (⟨["old", "new1", "new2"], none, []⟩ : XmlDlResult).fileContent =
        ["old"] ++ ["new1", "new2"])) := by
  refine ⟨rfl, ?_⟩
  exact spec_c9 (fun _ => (some "json", ["a.png"])) true 5 ["old"] 206
    ["new1", "new2"] ⟨["old", "new1", "new2"], none, []⟩ rfl (by decide) rfl

/-! ## C10: /setting requires a Host header -/

/-- **C10.** The `/setting` branch reads the request's `Host` header via
the throwing accessor `basic_fields::at`: with no `Host` header the
handler raises (no response is produced), and with a `Host` header it
answers 200 text/plain echoing the header. -/
theorem spec_c10 :
    (∃ e, settingHandler none = Except.error e) ∧
    (∀ h, settingHandler (some h) =
      Except.ok { status := 200, contentType := "text/plain; charset=utf-8",
                  body := "Request /setting has been processed: " ++ h }) :=
  ⟨⟨"std::out_of_range", rfl⟩, fun _ => rfl⟩

/-! ## C8: fixed 5-second unbounded reconnect -/

/-- **C8.** As long as connection attempts fail, the reconnect loop is
unbounded and each next attempt is scheduled exactly
`reconnectDelaySeconds = 5` seconds after the previous one: after `n`
failed attempts the `n`-th attempt happened at time `5·n` and the timer
for attempt `n+1` is armed for `5·n + 5`.  The delay never grows and
there is no retry cutoff. -/
theorem spec_c8 (f : Nat → Bool) (n : Nat) (h : ∀ i, i ≤ n → f i = false) :
    runAttempts f n =
      (reconnectDelaySeconds * n,
       schedule_reconnect (reconnectDelaySeconds * n)) ∧
    reconnectDelaySeconds = 5 := by
  refine ⟨?_, rfl⟩
  induction n with
  | zero =>
    have h0 : f 0 = false := h 0 (Nat.le_refl 0)
    simp [runAttempts, do_connect, h0]
  | succ n ih =>
    have hn : runAttempts f n =
        (reconnectDelaySeconds * n,
         schedule_reconnect (reconnectDelaySeconds * n)) :=
      ih (fun i hi => h i (Nat.le_succ_of_le hi))
    have hs : f (n + 1) = false := h (n + 1) (Nat.le_refl _)
    rw [runAttempts, hn]
    simp [schedule_reconnect, do_connect, hs, reconnectDelaySeconds]
    ring

theorem spec_c8_witness :
    runAttempts (fun _ => false) 2 = (10, ClientPhase.reconnectPending 15) ∧
    reconnectDelaySeconds = 5 := by
  have h := spec_c8 (fun _ => false) 2 (fun i _ => rfl)
  simpa [schedule_reconnect, reconnectDelaySeconds] using h

/-! ## C4: outbound write paths

Two outbound paths exist.  The server's `ws_session::deliver` /
`on_write` (main.cpp) use a write queue; the client's
`WebSocketClient::sendProtocol` (Network.h lines 78–82) has no queue: it
serializes the envelope and performs one synchronous blocking
`ws_.write`, which completes within the call. -/

/-- Client connection observable state: the messages written to the
socket, in order (`WebSocketClient` has no write-queue member). -/
structure ClientConn where
  sent : List String
deriving Repr

/-- Primitive operations an outbound path performs on submission. -/
inductive OutAction where
  | enqueue (msg : String) : OutAction
  | startWrite : OutAction
  | syncWrite (msg : String) : OutAction
deriving Repr, DecidableEq

/-- Operations performed by `ws_session::deliver` on submission: push onto
`write_queue_`, and start an `async_write` only when none was in flight. -/
def deliverActions (queueBefore : List String) (msg : String) :
    List OutAction :=
  if queueBefore.isEmpty then [OutAction.enqueue msg, OutAction.startWrite]
  else [OutAction.enqueue msg]

/-- `WebSocketClient::sendProtocol`: serialize and synchronously write. -/
def sendProtocol (c : ClientConn) (data : JVal) : ClientConn :=
  { sent := c.sent ++ [serializeJ data] }

/-- Operations performed by `WebSocketClient::sendProtocol` on submission:
exactly one blocking write, no queue operation. -/
def sendProtocolActions (data : JVal) : List OutAction :=
  [OutAction.syncWrite (serializeJ data)]

def runClientSends (c : ClientConn) : List JVal → ClientConn
  | [] => c
  | m :: ms => runClientSends (sendProtocol c m) ms

lemma runClientSends_sent (msgs : List JVal) :
    ∀ c : ClientConn,
      (runClientSends c msgs).sent = c.sent ++ msgs.map serializeJ := by
  induction msgs with
  | nil => intro c; simp [runClientSends]
  | cons m ms ih =>
    intro c
    simp [runClientSends, sendProtocol, ih]

/-- A concrete envelope submitted on a client session. -/
def c4msg : JVal :=
  JVal.obj [("protocol_id", JVal.num 2), ("data", JVal.str "done")]

/-- **C4 counterexample.** The claim ranges over every WebSocket session
and asserts that the outbound path enqueues each submitted message.  The
client transport's outbound path, `WebSocketClient::sendProtocol`
(Network.h lines 78–82), refutes it: submitting the concrete envelope
`c4msg` performs exactly one synchronous blocking write and no enqueue
operation — there is no write queue on client sessions. -/
theorem spec_c4_counterexample :
    sendProtocolActions c4msg = [OutAction.syncWrite (serializeJ c4msg)] ∧
    (sendProtocolActions c4msg).any
      (fun a => match a with
                | OutAction.enqueue _ => true
                | _ => false) = false :=
  ⟨rfl, rfl⟩

lemma wsStep_inv (s : WsSession) (e : WsEvent)
    (hs : s.writing = (if s.write_queue.isEmpty then 0 else 1)) :
    (wsStep s e).writing =
      (if (wsStep s e).write_queue.isEmpty then 0 else 1) ∧
    (wsStep s e).sent ++ (wsStep s e).write_queue =
      s.sent ++ s.write_queue ++ submitted [e] := by
  cases e with
  | deliverE msg =>
    cases hq : s.write_queue with
    | nil =>
      rw [hq] at hs
      simp at hs
      simp [wsStep, deliver, do_write, submitted, hq, hs]
    | cons x xs =>
      rw [hq] at hs
      simp at hs
      simp [wsStep, deliver, submitted, hq, hs]
  | writeDoneE =>
    cases hq : s.write_queue with
    | nil =>
      simp [wsStep, on_write, submitted, hq, hs]
    | cons m rest =>
      rw [hq] at hs
      simp at hs
      cases hr : rest with
      | nil => simp [wsStep, on_write, submitted, hq, hr, hs]
      | cons y ys => simp [wsStep, on_write, do_write, submitted, hq, hr, hs]

lemma runWs_inv (evs : List WsEvent) :
    ∀ s : WsSession,
      s.writing = (if s.write_queue.isEmpty then 0 else 1) →
      (runWs s evs).writing =
        (if (runWs s evs).write_queue.isEmpty then 0 else 1) ∧
      (runWs s evs).sent ++ (runWs s evs).write_queue =
        s.sent ++ s.write_queue ++ submitted evs := by
  induction evs with
  | nil => intro s hs; simp [runWs, submitted, hs]
  | cons e evs ih =>
    intro s hs
    obtain ⟨h1, h2⟩ := wsStep_inv s e hs
    obtain ⟨h3, h4⟩ := ih (wsStep s e) h1
    refine ⟨by simpa [runWs] using h3, ?_⟩
    show (runWs (wsStep s e) evs).sent ++ (runWs (wsStep s e) evs).write_queue = _
    rw [h4, h2]
    cases e <;> simp [submitted, List.filterMap_cons]

/-- **C4 (amended).** The enqueue / start-when-idle / dequeue-on-completion
mechanism belongs to the server hub session only.  For
`ws_session::deliver` / `do_write` / `on_write`: a send enqueues the
message; a write starts immediately iff none was in flight; each
completion dequeues the front and starts the next queued message;
consequently at most one write is outstanding at any time and the
completed-write sequence followed by the queue always equals the
submission order (FIFO delivery).  The client's
`WebSocketClient::sendProtocol` has no queue: each send performs one
synchronous blocking write that completes within the call, so
sequential sends are still written in submission order, one at a time. -/
theorem spec_c4 :
    (∀ evs : List WsEvent,
      (runWs initWs evs).writing ≤ 1 ∧
      (runWs initWs evs).writing =
        (if (runWs initWs evs).write_queue.isEmpty then 0 else 1) ∧
      (runWs initWs evs).sent ++ (runWs initWs evs).write_queue =
        submitted evs) ∧
    (∀ (s : WsSession) (msg : String),
      (deliver s msg).write_queue = s.write_queue ++ [msg] ∧
      (deliver s msg).writing =
        (if s.write_queue.isEmpty then s.writing + 1 else s.writing)) ∧
    (∀ s : WsSession,
      (on_write s).write_queue = s.write_queue.tail ∧
      (on_write s).sent = s.sent ++ s.write_queue.take 1) ∧
    (∀ (c : ClientConn) (data : JVal),
      sendProtocol c data = { sent := c.sent ++ [serializeJ data] } ∧
      sendProtocolActions data = [OutAction.syncWrite (serializeJ data)]) ∧
    (∀ (c : ClientConn) (msgs : List JVal),
      (runClientSends c msgs).sent = c.sent ++ msgs.map serializeJ) := by
  refine ⟨?_, ?_, ?_, fun c data => ⟨rfl, rfl⟩,
    fun c msgs => runClientSends_sent msgs c⟩
  · intro evs
    obtain ⟨h1, h2⟩ := runWs_inv evs initWs (by simp [initWs])
    refine ⟨?_, h1, by simpa [initWs] using h2⟩
    rw [h1]
    split <;> omega
  · intro s msg
    by_cases hq : s.write_queue.isEmpty <;>
      simp [deliver, do_write, hq]
  · intro s
    cases hq : s.write_queue with
    | nil => simp [on_write, hq]
    | cons m rest =>
      cases hr : rest with
      | nil => simp [on_write, hq, hr]
      | cons y ys => simp [on_write, do_write, hq, hr]

/-! ## C5: asset-discovered callback conditions -/

/-- **C5.** `onCharacterData`: character data arriving while capture is
inactive (`componentDepth_ == 0`) is ignored entirely; a run whose
trimmed value is empty is discarded with no callback; and for a run
received during capture whose trimmed value is non-empty, with the
callback injected and the current node a well-formed object, the
asset-discovered callback is invoked with the trimmed fragment exactly
when it ends with `.jpg`, `.jpeg` or `.png`. -/
theorem spec_c5 (s : HState) (data : String) :
    (s.depth = 0 → onCharacterData s data = Except.ok (s, [])) ∧
    (trim data = "" → onCharacterData s data = Except.ok (s, [])) ∧
    (∀ p rest o, s.depth ≠ 0 → trim data ≠ "" → s.hasCallback = true →
      s.stack = p :: rest → getPath s.root p = some (JVal.obj o) →
      (∀ v, objGet o "#text" = some v → ∃ t, v = JVal.str t) →
      ∃ s', onCharacterData s data =
        Except.ok (s',
          if hasAssetSuffix (trim data) then [trim data] else [])) := by
  refine ⟨?_, ?_, ?_⟩
  · intro hd
    simp [onCharacterData, hd]
  · intro ht
    by_cases hd : s.depth = 0
    · simp [onCharacterData, hd]
    · simp [onCharacterData, hd, ht]
  · intro p rest o hd ht hcb hstack hget htext
    cases h' : objGet o "#text" with
    | none =>
      refine ⟨{ s with root := setPath s.root p (JVal.obj (o ++ [("#text", JVal.str (trim data))])) }, ?_⟩
      simp [onCharacterData, hd, ht, hstack, hget, h', hcb]
    | some v =>
      obtain ⟨t, rfl⟩ := htext v h'
      refine ⟨{ s with root := setPath s.root p (JVal.obj (objSet o "#text" (JVal.str (t ++ trim data)))) }, ?_⟩
      simp [onCharacterData, hd, ht, hstack, hget, h', hcb]

def c5state : HState :=
  { root := JVal.obj [], stack := [[]], depth := 1, captured := false,
    hasCallback := true }

theorem spec_c5_witness :
    ∃ s', onCharacterData c5state " x.png \t" = Except.ok (s', ["x.png"]) := by
  have h := (spec_c5 c5state " x.png \t").2.2 [] [] []
    (by decide) (by decide) rfl rfl rfl (fun v hv => by cases hv)
  have e1 : trim " x.png \t" = "x.png" := by decide
  have e2 : hasAssetSuffix "x.png" = true := by decide
  rw [e1] at h
  simpa [e2] using h

/-! ## C7: /tasks broadcast -/

/-- **C7.** The `/tasks` handler answers `200` with content type
`text/plain`, and the broadcast message is exactly one protocol-1
envelope whose data object is `{host, target, model, version}` with
`host` the requesting client's IP and `target` the `address` query
parameter with the fixed prefix `/home/aoi/aoi` stripped when present;
`shared_state::broadcast` enqueues that message on every live session. -/
theorem spec_c7 (client_ip query : String) (sessions : List WsSession) :
    (tasksHandler client_ip query).msg =
      serializeJ (JVal.obj
        [("protocol_id", JVal.num 1),
         ("data", JVal.obj
           [("host", JVal.str client_ip),
            ("target", JVal.str (stripResultAddr
               (queryLookup (parse_query query) "address"))),
            ("model", JVal.str (queryLookup (parse_query query) "model")),
            ("version", JVal.str (queryLookup (parse_query query) "version"))])]) ∧
    (tasksHandler client_ip query).response.status = 200 ∧
    (tasksHandler client_ip query).response.contentType =
      "text/plain; charset=utf-8" ∧
    broadcast sessions (tasksHandler client_ip query).msg =
      sessions.map (fun s => deliver s (tasksHandler client_ip query).msg) ∧
    (∀ s : WsSession,
      (deliver s (tasksHandler client_ip query).msg).write_queue =
        s.write_queue ++ [(tasksHandler client_ip query).msg]) ∧
    stripResultAddr "/home/aoi/aoi/run/results/report.xml" =
      "/run/results/report.xml" ∧
    stripResultAddr "/other/path" = "/other/path" := by
  refine ⟨rfl, rfl, rfl, rfl, ?_, by decide, by decide⟩
  intro s
  by_cases hq : s.write_queue.isEmpty <;> simp [deliver, do_write, hq]

/-! ## C6: finalize succeeds exactly on captured, balanced documents -/

def isOkE (r : Except String String) : Bool :=
  match r with
  | Except.ok _ => true
  | Except.error _ => false

def isCompOpen : XEvent → Bool
  | XEvent.openE name _ => name = "component"
  | _ => false

lemma hasComponentOpen_cons (e : XEvent) (evs : List XEvent) :
    hasComponentOpen (e :: evs) = (isCompOpen e || hasComponentOpen evs) := by
  cases e <;> simp [hasComponentOpen, isCompOpen, List.any_cons]

lemma onCharacterData_ok (s : HState) (data : String) (s1 : HState)
    (calls : List String)
    (h : onCharacterData s data = Except.ok (s1, calls)) :
    s1.depth = s.depth ∧ s1.captured = s.captured := by
  unfold onCharacterData at h
  by_cases hd : s.depth = 0
  · rw [if_pos hd] at h
    simp only [Except.ok.injEq, Prod.mk.injEq] at h
    obtain ⟨h1, -⟩ := h
    subst h1
    exact ⟨rfl, rfl⟩
  · rw [if_neg hd] at h
    by_cases ht : trim data = ""
    · rw [if_pos ht] at h
      simp only [Except.ok.injEq, Prod.mk.injEq] at h
      obtain ⟨h1, -⟩ := h
      subst h1
      exact ⟨rfl, rfl⟩
    · rw [if_neg ht] at h
      obtain ⟨sroot, sstack, sdepth, scap, scb⟩ := s
      cases sstack with
      | nil => simp at h
      | cons p rest =>
        simp only at h
        cases hg : getPath sroot p with
        | none => simp [hg] at h
        | some cur =>
          simp only [hg] at h
          cases cur with
          | null =>
            simp only [Except.ok.injEq, Prod.mk.injEq] at h
            obtain ⟨h1, -⟩ := h
            subst h1
            exact ⟨rfl, rfl⟩
          | str t =>
            simp only [Except.ok.injEq, Prod.mk.injEq] at h
            obtain ⟨h1, -⟩ := h
            subst h1
            exact ⟨rfl, rfl⟩
          | num n =>
            simp only [Except.ok.injEq, Prod.mk.injEq] at h
            obtain ⟨h1, -⟩ := h
            subst h1
            exact ⟨rfl, rfl⟩
          | arr a =>
            simp only [Except.ok.injEq, Prod.mk.injEq] at h
            obtain ⟨h1, -⟩ := h
            subst h1
            exact ⟨rfl, rfl⟩
          | obj o =>
            cases hx : objGet o "#text" with
            | none =>
              simp only [hx, Except.ok.injEq, Prod.mk.injEq] at h
              obtain ⟨h1, -⟩ := h
              subst h1
              exact ⟨rfl, rfl⟩
            | some v =>
              cases v with
              | str t =>
                simp only [hx, Except.ok.injEq, Prod.mk.injEq] at h
                obtain ⟨h1, -⟩ := h
                subst h1
                exact ⟨rfl, rfl⟩
              | null => simp [hx] at h
              | num n => simp [hx] at h
              | arr a => simp [hx] at h
              | obj o' => simp [hx] at h

lemma stepFull_inv (s : HState) (d : Nat) (acc : List String)
    (s' : HState) (d' : Nat) (acc' : List String) (e : XEvent)
    (h : stepFull (s, d, acc) e = Except.ok (s', d', acc'))
    (hle : s.depth ≤ d) :
    s'.depth ≤ d' ∧
    ((s'.captured = true ∨ 0 < s'.depth) ↔
      (s.captured = true ∨ 0 < s.depth ∨ isCompOpen e = true)) := by
  cases e with
  | openE name attrs =>
    simp only [stepFull] at h
    cases hso : onStartElement s name attrs with
    | error err => rw [hso] at h; cases h
    | ok s1 =>
      rw [hso] at h
      simp only [Except.ok.injEq, Prod.mk.injEq] at h
      obtain ⟨h1, h2, h3⟩ := h
      subst h1
      subst h2
      unfold onStartElement at hso
      by_cases hd : s.depth = 0
      · rw [if_pos hd] at hso
        by_cases hc : ¬ s.captured = true ∧ name = "component"
        · rw [if_pos hc] at hso
          injection hso with hs1
          subst hs1
          refine ⟨by simp, ?_⟩
          simp [isCompOpen, hc.2]
        · rw [if_neg hc] at hso
          injection hso with hs1
          subst hs1
          refine ⟨by omega, ?_⟩
          rw [hd]
          by_cases hcap : s.captured = true
          · simp [hcap]
          · have hname : ¬ name = "component" := fun hn => hc ⟨hcap, hn⟩
            simp [hcap, isCompOpen, hname]
      · rw [if_neg hd] at hso
        have hfields : s1.depth = s.depth + 1 ∧ s1.captured = s.captured := by
          clear hle h3
          obtain ⟨sroot, sstack, sdepth, scap, scb⟩ := s
          cases sstack with
          | nil => simp at hso
          | cons pp tl =>
            simp only at hso
            cases hg : getPath sroot pp with
            | none => simp [hg] at hso
            | some parent =>
              simp only [hg] at hso
              cases parent with
              | obj po =>
                cases hob : objGet po name with
                | some existing =>
                  simp only [hob, Except.ok.injEq] at hso
                  subst hso
                  exact ⟨rfl, rfl⟩
                | none =>
                  simp only [hob, Except.ok.injEq] at hso
                  subst hso
                  exact ⟨rfl, rfl⟩
              | null => simp at hso
              | str t => simp at hso
              | num n => simp at hso
              | arr a => simp at hso
        obtain ⟨hdep, hcap⟩ := hfields
        have hpos : 0 < s.depth := Nat.pos_of_ne_zero hd
        refine ⟨by omega, ?_⟩
        rw [hdep, hcap]
        simp [hpos]
  | closeE name =>
    simp only [stepFull, Except.ok.injEq, Prod.mk.injEq] at h
    obtain ⟨h1, h2, h3⟩ := h
    subst h2
    subst h1
    have hfields : (onEndElement s).depth = s.depth - 1 ∧
        ((onEndElement s).captured = true ↔
          (s.captured = true ∨ (0 < s.depth ∧ s.depth - 1 = 0))) := by
      unfold onEndElement
      by_cases hd : 0 < s.depth
      · rw [if_pos hd]
        by_cases hz : s.depth - 1 = 0
        · simp [hz, hd]
        · simp [hz, hd]
      · rw [if_neg hd]
        have h0 : s.depth = 0 := by omega
        simp [h0]
    obtain ⟨hdep, hcap⟩ := hfields
    refine ⟨by omega, ?_⟩
    rw [hdep, hcap]
    simp only [isCompOpen]
    constructor
    · rintro (hc | hp)
      · rcases hc with hc | ⟨hpos, -⟩
        · exact Or.inl hc
        · exact Or.inr (Or.inl hpos)
      · exact Or.inr (Or.inl (by omega))
    · rintro (hc | hp | habs)
      · exact Or.inl (Or.inl hc)
      · by_cases hz : s.depth - 1 = 0
        · exact Or.inl (Or.inr ⟨hp, hz⟩)
        · exact Or.inr (by omega)
      · cases habs
  | textE data =>
    simp only [stepFull] at h
    cases hcd : onCharacterData s data with
    | error err => rw [hcd] at h; cases h
    | ok pr =>
      obtain ⟨s1, calls⟩ := pr
      rw [hcd] at h
      simp only [Except.ok.injEq, Prod.mk.injEq] at h
      obtain ⟨h1, h2, h3⟩ := h
      subst h1
      subst h2
      obtain ⟨hdep, hcap⟩ := onCharacterData_ok s data s1 calls hcd
      refine ⟨by omega, ?_⟩
      rw [hdep, hcap]
      simp [isCompOpen]

lemma runFull_inv (evs : List XEvent) :
    ∀ (s : HState) (d : Nat) (acc : List String)
      (s' : HState) (d' : Nat) (acc' : List String),
      runFull (s, d, acc) evs = Except.ok (s', d', acc') →
      s.depth ≤ d →
      s'.depth ≤ d' ∧
      ((s'.captured = true ∨ 0 < s'.depth) ↔
        (s.captured = true ∨ 0 < s.depth ∨ hasComponentOpen evs = true)) := by
  induction evs with
  | nil =>
    intro s d acc s' d' acc' h hle
    simp only [runFull, Except.ok.injEq, Prod.mk.injEq] at h
    obtain ⟨h1, h2, -⟩ := h
    subst h1
    subst h2
    simp [hasComponentOpen, hle]
  | cons e evs ih =>
    intro s d acc s' d' acc' h hle
    cases hstep : stepFull (s, d, acc) e with
    | error err =>
      simp only [runFull, hstep] at h
      cases h
    | ok st1 =>
      obtain ⟨s1, d1, acc1⟩ := st1
      simp only [runFull, hstep] at h
      obtain ⟨hle1, hiff1⟩ := stepFull_inv s d acc s1 d1 acc1 e hstep hle
      obtain ⟨hle2, hiff2⟩ := ih s1 d1 acc1 s' d' acc' h hle1
      refine ⟨hle2, ?_⟩
      rw [hiff2]
      simp only [hasComponentOpen_cons, Bool.or_eq_true]
      constructor
      · rintro (hc | hp | hcomp)
        · rcases hiff1.mp (Or.inl hc) with h' | h' | h'
          · exact Or.inl h'
          · exact Or.inr (Or.inl h')
          · exact Or.inr (Or.inr (Or.inl h'))
        · rcases hiff1.mp (Or.inr hp) with h' | h' | h'
          · exact Or.inl h'
          · exact Or.inr (Or.inl h')
          · exact Or.inr (Or.inr (Or.inl h'))
        · exact Or.inr (Or.inr (Or.inr hcomp))
      · rintro (hc | hp | he | hcomp)
        · rcases hiff1.mpr (Or.inl hc) with h' | h'
          · exact Or.inl h'
          · exact Or.inr (Or.inl h')
        · rcases hiff1.mpr (Or.inr (Or.inl hp)) with h' | h'
          · exact Or.inl h'
          · exact Or.inr (Or.inl h')
        · rcases hiff1.mpr (Or.inr (Or.inr he)) with h' | h'
          · exact Or.inl h'
          · exact Or.inr (Or.inl h')
        · exact Or.inr (Or.inr hcomp)

/-- **C6.** For any event stream that the streaming parse accepts,
`finalize` succeeds exactly when the element stack is balanced at end of
input (`d = 0`, otherwise the final `XML_Parse` call errors) and a
`component` element was captured — which, for balanced input, happens
exactly when some `component` start tag occurred; on success it
serializes the captured JSON object and writes it to the output file. -/
theorem spec_c6 (cb : Bool) (evs : List XEvent) (s : HState) (d : Nat)
    (acc : List String)
    (h : runFull (initState cb, 0, []) evs = Except.ok (s, d, acc)) :
    (isOkE (finalize d s) = true ↔ (d = 0 ∧ hasComponentOpen evs = true)) ∧
    (d = 0 → s.captured = true →
      finalize d s = Except.ok (serializeJ s.root)) := by
  obtain ⟨hle, hiff⟩ :=
    runFull_inv evs (initState cb) 0 [] s d acc h (by simp [initState])
  have hiff' : (s.captured = true ∨ 0 < s.depth) ↔ hasComponentOpen evs = true := by
    simpa [initState] using hiff
  constructor
  · constructor
    · intro hok
      by_cases hd : d = 0
      · refine ⟨hd, ?_⟩
        by_cases hcap : s.captured = true
        · exact hiff'.mp (Or.inl hcap)
        · simp [finalize, isOkE, hd, hcap] at hok
      · simp [finalize, isOkE, hd] at hok
    · rintro ⟨hd, hcomp⟩
      subst hd
      have hcap : s.captured = true := by
        rcases hiff'.mpr hcomp with hc | hp
        · exact hc
        · omega
      simp [finalize, isOkE, hcap]
  · intro hd hcap
    simp [finalize, hd, hcap]

def c6doc : List XEvent :=
  [XEvent.openE "component" [], XEvent.closeE "component"]

def c6state : HState :=
  { root := JVal.obj [], stack := [], depth := 0, captured := true,
    hasCallback := false }

theorem spec_c6_witness :
    (isOkE (finalize 0 c6state) = true ↔
      (0 = 0 ∧ hasComponentOpen c6doc = true)) ∧
    (0 = 0 → c6state.captured = true →
      finalize 0 c6state = Except.ok (serializeJ c6state.root)) :=
  spec_c6 false c6doc c6state 0 [] rfl

end ReviewServer
